import Mathlib

/-!
Verification of the `barrage` parser-combinator engine.

A shallow embedding of `src/parsers.rs` and the duration parser of
`src/main.rs`.  Input strings are modelled as `List Char` (the Rust code
slices at character boundaries everywhere the claims touch; the one place
it counts bytes is noted at `uintP`).  A parse outcome is `ok`/`err` as in
`anyhow::Result`, extended with `panicked` (the Rust code contains an
`expect` and an unreachable branch which abort by unwinding rather than
returning an error) and `diverge` (the repetition loops of
`ZeroOrMore`/`OneOrMore` are unbounded `loop`s in Rust; the embedding runs
them on fuel and maps fuel exhaustion — which for parsers satisfying the
suffix invariant happens exactly when the Rust loop would run forever —
to `diverge`).
-/

namespace Barrage

/-- An `anyhow`-style error: the context chain, outermost context first,
root cause last.  `anyhow::Context::context` pushes one message onto the
front of the chain. -/
structure Error where
  msgs : List String
deriving DecidableEq

/-- A fresh error with a single root message (`anyhow::format_err`). -/
def Error.ofMsg (m : String) : Error := ⟨[m]⟩

/-- Wrapping an error with one more layer of context, as
`anyhow::Context::context` does. -/
def Error.context (c : String) (e : Error) : Error := ⟨c :: e.msgs⟩

/-- Outcome of running a parser: `ok output rest` / `err e` model
`Ok((output, rest))` / `Err(e)`; `panicked` models a Rust panic unwinding
out of `parse`; `diverge` models a repetition loop that never terminates. -/
inductive PResult (α : Type) where
  | ok : α → List Char → PResult α
  | err : Error → PResult α
  | panicked : PResult α
  | diverge : PResult α
deriving DecidableEq

/-- A parser over output type `α`: the `Parser<'input, O>` capability of
`src/parsers.rs`, i.e. a function from input to a `ParseResult`. -/
def Parser (α : Type) : Type := List Char → PResult α

/-- Models Rust `char::is_numeric` (true for Unicode general categories
`Nd`, `Nl`, `No`) on the codepoints relevant to this development: the
ASCII digits together with the principal non-ASCII numeric ranges of the
Basic Multilingual Plane (Arabic-Indic and Indic digit blocks, superscript
and vulgar-fraction characters, Thai/Lao/Tibetan/Myanmar/Khmer digits,
Roman numerals, circled numbers, fullwidth digits).  No character used by
the claims falls outside these ranges. -/
def numericRanges : List (Nat × Nat) :=
  [(0x30, 0x39), (0xB2, 0xB3), (0xB9, 0xB9), (0xBC, 0xBE),
   (0x660, 0x669), (0x6F0, 0x6F9), (0x966, 0x96F), (0x9E6, 0x9EF),
   (0xA66, 0xA6F), (0xAE6, 0xAEF), (0xB66, 0xB6F), (0xBE6, 0xBEF),
   (0xC66, 0xC6F), (0xCE6, 0xCEF), (0xD66, 0xD6F), (0xE50, 0xE59),
   (0xED0, 0xED9), (0xF20, 0xF29), (0x1040, 0x1049), (0x17E0, 0x17E9),
   (0x2160, 0x2182), (0x2460, 0x249B), (0xFF10, 0xFF19)]

/-- Rust `c.is_numeric()`, restricted as documented at `numericRanges`. -/
def isNumericChar (c : Char) : Bool :=
  numericRanges.any (fun p => decide (p.1 ≤ c.toNat ∧ c.toNat ≤ p.2))

/-- The `Literal` parser (`src/parsers.rs` lines 82-96): succeeds iff the
input starts with the expected string (`strip_prefix`), yielding the
matched span and the rest. -/
def literalP (expected : List Char) : Parser (List Char) := fun input =>
  if expected.isPrefixOf input then
    .ok (input.take expected.length) (input.drop expected.length)
  else
    .err (Error.ofMsg ("expected literal `" ++ String.mk expected ++ "` not found in input"))

/-- The `Numeric` parser (`src/parsers.rs` lines 102-115): succeeds iff
the first character is `is_numeric`, yielding that single character.
Both the empty-input case and the non-numeric case fall into the Rust
wildcard arm and produce the same error. -/
def numericP : Parser (List Char) := fun input =>
  match input with
  | c :: rest =>
      if isNumericChar c then .ok [c] rest
      else .err (Error.ofMsg "non-numeric character found")
  | [] => .err (Error.ofMsg "non-numeric character found")

/-- The `Then` combinator (`src/parsers.rs` lines 40-62): run the first
parser, then the second on the remainder, wrapping each failure with its
context message.  A panic or divergence in a child unwinds through. -/
def thenP (first : Parser α) (second : Parser β) : Parser (α × β) := fun input =>
  match first input with
  | .ok o1 rest =>
      match second rest with
      | .ok o2 rest2 => .ok (o1, o2) rest2
      | .err e => .err (Error.context "second parser unsuccessful" e)
      | .panicked => .panicked
      | .diverge => .diverge
  | .err e => .err (Error.context "first parser unsuccessful" e)
  | .panicked => .panicked
  | .diverge => .diverge

/-- The `Map` combinator (`src/parsers.rs` lines 64-80): transform the
output on success, propagate failure unchanged. -/
def mapP (inner : Parser α) (f : α → β) : Parser β := fun input =>
  match inner input with
  | .ok o rest => .ok (f o) rest
  | .err e => .err e
  | .panicked => .panicked
  | .diverge => .diverge

/-- The `End` combinator (`src/parsers.rs` lines 254-270): run the inner
parser; succeed only if it left no remaining input, in which case the
*original* input is returned as the remainder (`Ok((output, input))` in
the source). -/
def endP (inner : Parser α) : Parser α := fun input =>
  match inner input with
  | .ok o rest =>
      match rest with
      | [] => .ok o input
      | _ => .err (Error.ofMsg "not end of input")
  | .err e => .err e
  | .panicked => .panicked
  | .diverge => .diverge

/-- Outcome of the repetition loop shared by `ZeroOrMore` and `OneOrMore`
(`src/parsers.rs` lines 131-141 and 164-174). -/
inductive LoopOut (α : Type) where
  | out : List α → List Char → LoopOut α
  | panicked : LoopOut α
  | diverge : LoopOut α
deriving DecidableEq

/-- The unbounded repetition loop, run on fuel: apply the child parser to
successive remainders, collecting outputs, until the child fails; the
failing attempt's input is the final remainder.  The Rust loop tracks a
byte position `pos` and re-slices `&input[pos..]`; for parsers whose
success remainder is a suffix of their input (the suffix invariant, proved
below for every parser of this library) that slice is exactly the child's
remainder, which the embedding passes directly.  Fuel exhaustion yields
`diverge`: with fuel `input.length + 1`, fuel can only run out if some
successful application consumed nothing, and then the pure Rust loop would
re-run that application at the same position forever. -/
def repParse (p : Parser α) : Nat → List Char → LoopOut α
  | 0, _ => .diverge
  | fuel + 1, input =>
      match p input with
      | .ok o rest =>
          match repParse p fuel rest with
          | .out os r => .out (o :: os) r
          | x => x
      | .err _ => .out [] input
      | .panicked => .panicked
      | .diverge => .diverge

/-- The `ZeroOrMore` combinator (`src/parsers.rs` lines 121-152): the
repetition loop, always succeeding with the (possibly empty) collected
outputs. -/
def zeroOrMore (p : Parser α) : Parser (List α) := fun input =>
  match repParse p (input.length + 1) input with
  | .out os r => .ok os r
  | .panicked => .panicked
  | .diverge => .diverge

/-- The `OneOrMore` combinator (`src/parsers.rs` lines 154-191): the same
loop, but an empty collection is an error. -/
def oneOrMore (p : Parser α) : Parser (List α) := fun input =>
  match repParse p (input.length + 1) input with
  | .out os r =>
      if os.isEmpty then
        .err (Error.ofMsg "parser did not find any values it could consume")
      else .ok os r
  | .panicked => .panicked
  | .diverge => .diverge

/-- The bounded repetition loop of `NOrMore` (`src/parsers.rs` lines
206-216): at most `times` applications, stopping early at the first
failure. -/
def repParseN (p : Parser α) : Nat → List Char → LoopOut α
  | 0, input => .out [] input
  | times + 1, input =>
      match p input with
      | .ok o rest =>
          match repParseN p times rest with
          | .out os r => .out (o :: os) r
          | x => x
      | .err _ => .out [] input
      | .panicked => .panicked
      | .diverge => .diverge

/-- The `NOrMore` combinator (`src/parsers.rs` lines 193-233): up to
`times` repetitions; an empty collection is an error. -/
def nOrMore (times : Nat) (p : Parser α) : Parser (List α) := fun input =>
  match repParseN p times input with
  | .out os r =>
      if os.isEmpty then
        .err (Error.ofMsg "parser did not find any values it could consume")
      else .ok os r
  | .panicked => .panicked
  | .diverge => .diverge

/-- ASCII decimal digit test, as used by `str::parse::<u64>`. -/
def isAsciiDigit (c : Char) : Bool := decide ('0' ≤ c ∧ c ≤ '9')

/-- Value of a big-endian ASCII digit string. -/
def digitsToNat (s : List Char) : Nat :=
  s.foldl (fun acc c => acc * 10 + (c.toNat - 48)) 0

/-- One more than `u64::MAX`. -/
def u64Limit : Nat := 2 ^ 64

/-- Dropping the optional leading plus sign accepted by
`str::parse::<u64>`. -/
def stripPlus (s : List Char) : List Char :=
  if s.headD ' ' = '+' then s.tail else s

/-- Models `str::parse::<u64>`: an optional leading `+`, then one or more
ASCII decimal digits whose value fits in 64 bits; anything else is a parse
error (`none`). -/
def parseU64 (s : List Char) : Option Nat :=
  if stripPlus s ≠ [] ∧ (stripPlus s).all isAsciiDigit ∧ digitsToNat (stripPlus s) < u64Limit then
    some (digitsToNat (stripPlus s))
  else none

/-- The `IntegerParser` behind `uint()` (`src/parsers.rs` lines 235-252):
run `one_or_more(numeric())`, re-slice the matched span from the input,
and convert it with `str::parse::<u64>` under an `expect` — a failing
conversion is a Rust panic, not an error.  The Rust code takes
`&input[..out.len()]`, i.e. as many *bytes* as there were matched
characters; on ASCII digit spans (the only spans the conversion accepts)
this equals taking that many characters, which is what the embedding does.
On non-ASCII numeric spans both the Rust slice and the conversion abort by
panicking, which the embedding reaches through the `none` branch. -/
def uintP : Parser Nat := fun input =>
  match oneOrMore numericP input with
  | .ok out rest =>
      match parseU64 (input.take out.length) with
      | some n => .ok n rest
      | none => .panicked
  | .err e => .err e
  | .panicked => .panicked
  | .diverge => .diverge

/-- The `one_of!` macro (`src/parsers.rs` lines 275-288): try each literal
candidate in order against the same input, returning the first success;
if every candidate fails, report that none matched.  (The Rust expansion
matches each `literal` result on `Ok`/`Err`; `literal` cannot panic or
diverge, so the catch-all arm of the embedding is exercised only by
errors.) -/
def oneOf : List (List Char) → Parser (List Char)
  | [] => fun _ => .err (Error.ofMsg "none of provided options matched")
  | c :: cs => fun input =>
      match literalP c input with
      | .ok o r => .ok o r
      | _ => oneOf cs input

/-- Rust `std::time::Duration`: whole seconds plus a sub-second
nanosecond part (always below `10 ^ 9` for values built by the
constructors used here). -/
structure Duration where
  secs : Nat
  nanos : Nat
deriving DecidableEq

/-- Rust `Duration::from_secs`. -/
def Duration.from_secs (n : Nat) : Duration := ⟨n, 0⟩

/-- Rust `Duration::from_millis`. -/
def Duration.from_millis (n : Nat) : Duration := ⟨n / 1000, n % 1000 * 1000000⟩

/-- Rust `Duration::from_micros`. -/
def Duration.from_micros (n : Nat) : Duration := ⟨n / 1000000, n % 1000000 * 1000⟩

/-- Rust `Duration::from_nanos`. -/
def Duration.from_nanos (n : Nat) : Duration := ⟨n / 1000000000, n % 1000000000⟩

/-- The unit candidates of `duration()` in `src/main.rs` line 26, in their
source order. -/
def durationUnits : List (List Char) := [['s'], ['m', 's'], ['n', 's'], ['u', 's']]

/-- The body of the `map` closure in `duration()` (`src/main.rs` lines
27-33): scale the integer by the matched unit.  The wildcard arm of the
Rust match is `unreachable`, a panic, modelled by `none`. -/
def durMatch (n : Nat) (unit : List Char) : Option Duration :=
  match unit with
  | ['s'] => some (Duration.from_secs n)
  | ['m', 's'] => some (Duration.from_millis n)
  | ['n', 's'] => some (Duration.from_nanos n)
  | ['u', 's'] => some (Duration.from_micros n)
  | _ => none

/-- The `duration()` parser from `src/main.rs` lines 24-34:
`uint().then(one_of!("s", "ms", "ns", "us")).map(...)`.  The `map` closure
can panic (its wildcard arm), so the combination is written with explicit
panic propagation rather than through `mapP`, whose argument must be
total. -/
def durationP : Parser Duration := fun input =>
  match thenP uintP (oneOf durationUnits) input with
  | .ok (n, unit) rest =>
      match durMatch n unit with
      | some d => .ok d rest
      | none => .panicked
  | .err e => .err e
  | .panicked => .panicked
  | .diverge => .diverge

/-- Final result of `parse_duration`, which discards the remainder. -/
inductive DurResult where
  | ok : Duration → DurResult
  | err : Error → DurResult
  | panicked : DurResult
  | diverge : DurResult
deriving DecidableEq

/-- True exactly on the `err` constructor. -/
def DurResult.isErr : DurResult → Bool
  | .err _ => true
  | _ => false

/-- The `parse_duration` function from `src/main.rs` lines 36-42:
`duration().end().parse(s)`, keeping only the output and wrapping any
error with one layer of context. -/
def parse_duration (s : List Char) : DurResult :=
  match endP durationP s with
  | .ok d _ => .ok d
  | .err e => .err (Error.context "cannot parse to duration value" e)
  | .panicked => .panicked
  | .diverge => .diverge

/-! Helper lemmas shared by the claim theorems. -/

/-- A parser's success remainder is a suffix of its input — the
`remaining_input` invariant of the specification. -/
def SuffixInv (p : Parser α) : Prop :=
  ∀ s o r, p s = .ok o r → r <:+ s

/-- The single-digit parser never panics or diverges. -/
lemma numericP_total (s : List Char) :
    numericP s ≠ PResult.panicked ∧ numericP s ≠ PResult.diverge := by
  cases s with
  | nil => exact ⟨by simp [numericP], by simp [numericP]⟩
  | cons c cs => cases h : isNumericChar c <;> simp [numericP, h]

/-- The single-digit parser consumes exactly one character on success. -/
lemma numericP_progress (s o r : List Char) (h : numericP s = .ok o r) :
    r.length < s.length := by
  cases s with
  | nil => simp [numericP] at h
  | cons c cs =>
      cases hc : isNumericChar c <;> simp [numericP, hc] at h
      rw [← h.2]
      simp

/-- The literal parser either succeeds or fails; it cannot panic or
diverge. -/
lemma literalP_cases (c s : List Char) :
    (∃ o r, literalP c s = .ok o r) ∨ (∃ e, literalP c s = .err e) := by
  unfold literalP
  by_cases h : c.isPrefixOf s
  · exact Or.inl ⟨_, _, by rw [if_pos h]⟩
  · exact Or.inr ⟨_, by rw [if_neg h]⟩

/-- C3: the claim says `uint().parse` never panics — that the span matched
by `one_or_more(numeric())` always converts to a 64-bit unsigned integer.
The code evaluated at a 20-digit span of value `2 ^ 64` (one past
`u64::MAX`): the conversion fails its `expect` and the parser panics.  For
contrast, a non-digit input is an ordinary error, not a panic. -/
theorem C3_uint_panics_on_overflow :
    uintP ['1', '8', '4', '4', '6', '7', '4', '4', '0', '7', '3', '7', '0',
           '9', '5', '5', '1', '6', '1', '6'] = .panicked ∧
    uintP ['x'] = .err (Error.ofMsg "parser did not find any values it could consume") := by
  decide

/-- C2: `parse_duration` does reject the spec's listed malformed inputs
with errors (empty string, bare unit, bare number, unsupported unit,
trailing characters), but it does not return an error on *every* input
outside the duration grammar: on a 20-digit bare number of value `2 ^ 64`
the integer conversion panics instead of erroring. -/
theorem C2_rejects_malformed_but_panics_on_overflow :
    (parse_duration []).isErr = true ∧
    (parse_duration ['m', 's']).isErr = true ∧
    (parse_duration ['5', '0', '0']).isErr = true ∧
    (parse_duration ['5', '0', '0', 'x']).isErr = true ∧
    (parse_duration ['5', '0', '0', 'm', 's', '!']).isErr = true ∧
    (parse_duration ['m', 's', '5', '0', '0']).isErr = true ∧
    parse_duration ['1', '8', '4', '4', '6', '7', '4', '4', '0', '7', '3', '7',
                    '0', '9', '5', '5', '1', '6', '1', '6'] = .panicked := by
  decide

/-- C4 counterexample: the claim says empty input fails with a distinct
"unexpected end of input" error; in the code the empty-input case falls
into the same wildcard arm as the non-digit case, and both produce the
identical error "non-numeric character found". -/
theorem C4_counterexample :
    numericP [] = .err (Error.ofMsg "non-numeric character found") ∧
    numericP ['x'] = .err (Error.ofMsg "non-numeric character found") ∧
    numericP [] = numericP ['x'] := by
  decide

/-- C4 (amended): `numeric().parse` succeeds exactly when the first
character of the input is Unicode-numeric, yielding that one character as
its output span and the rest as remaining input; both failure cases —
empty input and a non-numeric first character — fail with the same error
"non-numeric character found". -/
theorem C4_numeric_characterization (s : List Char) :
    (∀ c cs, s = c :: cs → isNumericChar c = true → numericP s = .ok [c] cs) ∧
    (∀ c cs, s = c :: cs → isNumericChar c = false →
      numericP s = .err (Error.ofMsg "non-numeric character found")) ∧
    (s = [] → numericP s = .err (Error.ofMsg "non-numeric character found")) ∧
    (∀ o r, numericP s = .ok o r →
      ∃ c cs, s = c :: cs ∧ isNumericChar c = true ∧ o = [c] ∧ r = cs) := by
  refine ⟨?_, ?_, ?_, ?_⟩
  · intro c cs hs hc; subst hs; simp [numericP, hc]
  · intro c cs hs hc; subst hs; simp [numericP, hc]
  · intro hs; subst hs; rfl
  · intro o r h
    cases s with
    | nil => simp [numericP] at h
    | cons c cs =>
        cases hc : isNumericChar c <;> simp [numericP, hc] at h
        exact ⟨c, cs, rfl, hc, h.1.symm, h.2.symm⟩

/-- C4 witness: the amended characterization applied to the concrete input
"5x". -/
theorem C4_witness : numericP ['5', 'x'] = .ok ['5'] ['x'] :=
  (C4_numeric_characterization ['5', 'x']).1 '5' ['x'] rfl (by decide)

/-- C6: `then(P1, P2)` runs P1, then P2 on P1's remainder; it fails
wrapping P1's error with "first parser unsuccessful" when P1 fails, fails
wrapping P2's error with "second parser unsuccessful" when P2 fails after
P1 succeeded, succeeds with the pair of outputs and P2's remainder when
both succeed, and any success implies both children succeeded in sequence
(P1's consumption is never undone). -/
theorem C6_then_sequencing (α β : Type) (p1 : Parser α) (p2 : Parser β) (s : List Char) :
    (∀ e, p1 s = .err e →
      thenP p1 p2 s = .err (Error.context "first parser unsuccessful" e)) ∧
    (∀ o1 r1 e, p1 s = .ok o1 r1 → p2 r1 = .err e →
      thenP p1 p2 s = .err (Error.context "second parser unsuccessful" e)) ∧
    (∀ o1 r1 o2 r2, p1 s = .ok o1 r1 → p2 r1 = .ok o2 r2 →
      thenP p1 p2 s = .ok (o1, o2) r2) ∧
    (∀ o r, thenP p1 p2 s = .ok o r →
      ∃ r1, p1 s = .ok o.1 r1 ∧ p2 r1 = .ok o.2 r) := by
  refine ⟨?_, ?_, ?_, ?_⟩
  · intro e h1; simp [thenP, h1]
  · intro o1 r1 e h1 h2; simp [thenP, h1, h2]
  · intro o1 r1 o2 r2 h1 h2; simp [thenP, h1, h2]
  · intro o r h
    cases h1 : p1 s with
    | ok o1 r1 =>
        cases h2 : p2 r1 with
        | ok o2 r2 =>
            simp only [thenP, h1, h2, PResult.ok.injEq] at h
            obtain ⟨ho, hr⟩ := h
            subst ho; subst hr
            exact ⟨r1, rfl, h2⟩
        | err e => simp [thenP, h1, h2] at h
        | panicked => simp [thenP, h1, h2] at h
        | diverge => simp [thenP, h1, h2] at h
    | err e => simp [thenP, h1] at h
    | panicked => simp [thenP, h1] at h
    | diverge => simp [thenP, h1] at h

/-- C6 witness: sequencing two literals on "ab". -/
theorem C6_witness :
    thenP (literalP ['a']) (literalP ['b']) ['a', 'b'] = .ok (['a'], ['b']) [] :=
  (C6_then_sequencing (List Char) (List Char) (literalP ['a']) (literalP ['b'])
      ['a', 'b']).2.2.1 ['a'] ['b'] ['b'] [] (by decide) (by decide)

/-- All candidates failing makes `one_of` report that none matched. -/
lemma oneOf_all_fail (cands : List (List Char)) (s : List Char)
    (h : ∀ c ∈ cands, ∃ e, literalP c s = .err e) :
    oneOf cands s = .err (Error.ofMsg "none of provided options matched") := by
  induction cands with
  | nil => rfl
  | cons c cs ih =>
      obtain ⟨e, he⟩ := h c (List.mem_cons_self c cs)
      simp only [oneOf, he]
      exact ih (fun c' hc' => h c' (List.mem_cons_of_mem c hc'))

/-- If `one_of` reports that none matched, every candidate fails. -/
lemma oneOf_err_all_fail (cands : List (List Char)) (s : List Char)
    (h : oneOf cands s = .err (Error.ofMsg "none of provided options matched")) :
    ∀ c ∈ cands, ∃ e, literalP c s = .err e := by
  induction cands with
  | nil => intro c hc; simp at hc
  | cons c cs ih =>
      intro c' hc'
      rcases literalP_cases c s with ⟨o, r, ho⟩ | ⟨e, he⟩
      · simp only [oneOf, ho] at h
        exact absurd h (by simp)
      · simp only [oneOf, he] at h
        rcases List.mem_cons.mp hc' with rfl | hmem
        · exact ⟨e, he⟩
        · exact ih h c' hmem

/-- C7: the `one_of` alternation tries each literal candidate in order
against the same input position, returns the result of the first
candidate that succeeds, and fails with "none of provided options
matched" exactly when every candidate fails. -/
theorem C7_one_of_first_match (cands : List (List Char)) (s : List Char) :
    (oneOf cands s = .err (Error.ofMsg "none of provided options matched") ↔
      ∀ c ∈ cands, ∃ e, literalP c s = .err e) ∧
    (∀ pre c post, cands = pre ++ c :: post →
      (∀ c' ∈ pre, ∃ e, literalP c' s = .err e) →
      ∀ o r, literalP c s = .ok o r → oneOf cands s = .ok o r) := by
  constructor
  · exact ⟨oneOf_err_all_fail cands s, oneOf_all_fail cands s⟩
  · intro pre c post hc hpre o r hok
    subst hc
    induction pre with
    | nil => simp only [List.nil_append, oneOf, hok]
    | cons p ps ih =>
        obtain ⟨e, he⟩ := hpre p (List.mem_cons_self p ps)
        simp only [List.cons_append, oneOf, he]
        exact ih (fun c' hc' => hpre c' (List.mem_cons_of_mem p hc'))

/-- C7 witness: on input "ms" the candidate "s" fails and the second
candidate "ms" is the first success, so the duration unit alternation
yields "ms". -/
theorem C7_witness : oneOf durationUnits ['m', 's'] = .ok ['m', 's'] [] :=
  (C7_one_of_first_match durationUnits ['m', 's']).2 [['s']] ['m', 's']
    [['n', 's'], ['u', 's']] rfl
    (by
      intro c' hc'
      simp only [List.mem_singleton] at hc'
      subst hc'
      exact ⟨Error.ofMsg "expected literal `s` not found in input", by decide⟩)
    ['m', 's'] [] (by decide)

/-- C10: whenever `end(P)` succeeds, the remainder it reports is the
entire original input — not the empty remainder the inner parser left —
and the inner parser did succeed on that input with empty remainder. -/
theorem C10_end_reports_whole_input (α : Type) (p : Parser α) (s : List Char)
    (o : α) (r : List Char) (h : endP p s = .ok o r) :
    r = s ∧ p s = .ok o [] := by
  cases hp : p s with
  | ok o' rest =>
      cases rest with
      | nil =>
          simp only [endP, hp, PResult.ok.injEq] at h
          obtain ⟨ho, hr⟩ := h
          subst ho; subst hr
          exact ⟨rfl, rfl⟩
      | cons c cs => simp [endP, hp] at h
  | err e => simp [endP, hp] at h
  | panicked => simp [endP, hp] at h
  | diverge => simp [endP, hp] at h

/-- C10 witness: `end` around a literal consuming the whole input "ab"
reports the full original input as remainder. -/
theorem C10_witness :
    (['a', 'b'] : List Char) = ['a', 'b'] ∧ literalP ['a', 'b'] ['a', 'b'] = .ok ['a', 'b'] [] :=
  C10_end_reports_whole_input (List Char) (literalP ['a', 'b']) ['a', 'b']
    ['a', 'b'] ['a', 'b'] (by decide)

/-- Specification relation for unbounded repetition: `Many p s os r`
holds when, starting from input `s`, the parser succeeds `os.length`
times in order producing the outputs `os` on chained remainders, and then
fails, the final remainder `r` being the failing attempt's input. -/
inductive Many {α : Type} (p : Parser α) : List Char → List α → List Char → Prop where
  | stop (s : List Char) (e : Error) (h : p s = .err e) : Many p s [] s
  | step (s : List Char) (o : α) (r : List Char) (os : List α) (r' : List Char)
      (h : p s = .ok o r) (hrec : Many p r os r') : Many p s (o :: os) r'

/-- Specification relation for bounded repetition: `UpTo p t s os r`
holds when at most `t` applications of the parser to successive
remainders produce `os`, stopping early only at a failing application
(whose input is the final remainder `r`) or when the count is
exhausted. -/
inductive UpTo {α : Type} (p : Parser α) : Nat → List Char → List α → List Char → Prop where
  | zero (s : List Char) : UpTo p 0 s [] s
  | stop (t : Nat) (s : List Char) (e : Error) (h : p s = .err e) : UpTo p (t + 1) s [] s
  | step (t : Nat) (s : List Char) (o : α) (r : List Char) (os : List α) (r' : List Char)
      (h : p s = .ok o r) (hrec : UpTo p t r os r') : UpTo p (t + 1) s (o :: os) r'

/-- The bounded repetition loop realizes the `UpTo` relation for any
parser that cannot panic or diverge. -/
lemma repParseN_upTo {α : Type} (p : Parser α)
    (hnp : ∀ s, p s ≠ PResult.panicked ∧ p s ≠ PResult.diverge) :
    ∀ (t : Nat) (s : List Char), ∃ os r, UpTo p t s os r ∧ repParseN p t s = .out os r := by
  intro t
  induction t with
  | zero => intro s; exact ⟨[], s, .zero s, rfl⟩
  | succ t ih =>
      intro s
      cases hp : p s with
      | ok o rest =>
          obtain ⟨os, r, hu, he⟩ := ih rest
          exact ⟨o :: os, r, .step t s o rest os r hp hu, by simp [repParseN, hp, he]⟩
      | err e => exact ⟨[], s, .stop t s e hp, by simp [repParseN, hp]⟩
      | panicked => exact absurd hp (hnp s).1
      | diverge => exact absurd hp (hnp s).2

/-- C5: for every count, parser and input, `n_or_more(times, P)` applies
P at most `times` times to successive remainders, stops early at the
first failing application without that being an error by itself, and
fails — with the empty-repetition error — if and only if the collected
sequence of outputs is empty ("up to N, fail only if none"). -/
theorem C5_n_or_more_up_to (α : Type) (p : Parser α) (t : Nat) (s : List Char)
    (hwf : ∀ s', p s' ≠ PResult.panicked ∧ p s' ≠ PResult.diverge) :
    ∃ os r, UpTo p t s os r ∧
      nOrMore t p s =
        (if os.isEmpty then .err (Error.ofMsg "parser did not find any values it could consume")
         else .ok os r) := by
  obtain ⟨os, r, hu, he⟩ := repParseN_upTo p hwf t s
  exact ⟨os, r, hu, by simp only [nOrMore, he]⟩

/-- C5 witness: `n_or_more(2, numeric())` on "123" takes exactly two
digits. -/
theorem C5_witness :
    ∃ os r, UpTo numericP 2 ['1', '2', '3'] os r ∧
      nOrMore 2 numericP ['1', '2', '3'] =
        (if os.isEmpty then .err (Error.ofMsg "parser did not find any values it could consume")
         else .ok os r) :=
  C5_n_or_more_up_to (List Char) numericP 2 ['1', '2', '3'] numericP_total

/-- The unbounded repetition loop realizes the `Many` relation, given
enough fuel, for any parser that cannot panic or diverge and that
consumes at least one character on success. -/
lemma repParse_many {α : Type} (p : Parser α)
    (hnp : ∀ s, p s ≠ PResult.panicked ∧ p s ≠ PResult.diverge)
    (hprog : ∀ s o r, p s = .ok o r → r.length < s.length) :
    ∀ (fuel : Nat) (s : List Char), s.length < fuel →
      ∃ os r, Many p s os r ∧ repParse p fuel s = .out os r := by
  intro fuel
  induction fuel with
  | zero => intro s h; omega
  | succ fuel ih =>
      intro s hs
      cases hp : p s with
      | ok o rest =>
          have hlt : rest.length < fuel :=
            Nat.lt_of_lt_of_le (hprog s o rest hp) (Nat.lt_succ_iff.mp hs)
          obtain ⟨os, r, hm, he⟩ := ih rest hlt
          exact ⟨o :: os, r, .step s o rest os r hp hm, by simp [repParse, hp, he]⟩
      | err e => exact ⟨[], s, .stop s e hp, by simp [repParse, hp]⟩
      | panicked => exact absurd hp (hnp s).1
      | diverge => exact absurd hp (hnp s).2

/-- C8: `one_or_more(P)` repeatedly applies P to successive remainders
until P fails, collecting the outputs in order with the failing attempt's
unconsumed remainder as final remaining input, and fails with "parser did
not find any values it could consume" exactly when zero repetitions
succeeded (stated for parsers that cannot panic or diverge and that
consume input on success, which all parsers of this library used under
repetition are); in particular on "123abc" it yields the digit spans of
"123" with remaining input "abc", and on "abc" it fails with the
empty-repetition error. -/
theorem C8_one_or_more (α : Type) (p : Parser α) (s : List Char)
    (hwf : ∀ s', p s' ≠ PResult.panicked ∧ p s' ≠ PResult.diverge)
    (hprog : ∀ s' o r, p s' = .ok o r → r.length < s'.length) :
    (∃ os r, Many p s os r ∧
      oneOrMore p s =
        (if os.isEmpty then .err (Error.ofMsg "parser did not find any values it could consume")
         else .ok os r)) ∧
    oneOrMore numericP ['1', '2', '3', 'a', 'b', 'c'] =
      .ok [['1'], ['2'], ['3']] ['a', 'b', 'c'] ∧
    oneOrMore numericP ['a', 'b', 'c'] =
      .err (Error.ofMsg "parser did not find any values it could consume") := by
  refine ⟨?_, by decide, by decide⟩
  obtain ⟨os, r, hm, he⟩ := repParse_many p hwf hprog (s.length + 1) s (Nat.lt_succ_self _)
  exact ⟨os, r, hm, by simp only [oneOrMore, he]⟩

/-- C8 witness: `one_or_more(numeric())` on "7x". -/
theorem C8_witness :
    (∃ os r, Many numericP ['7', 'x'] os r ∧
      oneOrMore numericP ['7', 'x'] =
        (if os.isEmpty then .err (Error.ofMsg "parser did not find any values it could consume")
         else .ok os r)) ∧
    oneOrMore numericP ['1', '2', '3', 'a', 'b', 'c'] =
      .ok [['1'], ['2'], ['3']] ['a', 'b', 'c'] ∧
    oneOrMore numericP ['a', 'b', 'c'] =
      .err (Error.ofMsg "parser did not find any values it could consume") :=
  C8_one_or_more (List Char) numericP ['7', 'x'] numericP_total numericP_progress

/-- Both repetition loops only return remainders reached by chaining
child remainders, so they preserve the suffix invariant. -/
lemma repParse_suffix {α : Type} (p : Parser α) (hp : SuffixInv p) :
    ∀ (fuel : Nat) (s : List Char) (os : List α) (r : List Char),
      repParse p fuel s = .out os r → r <:+ s := by
  intro fuel
  induction fuel with
  | zero => intro s os r h; simp [repParse] at h
  | succ fuel ih =>
      intro s os r h
      cases hps : p s with
      | ok o rest =>
          simp only [repParse, hps] at h
          cases hrec : repParse p fuel rest with
          | out os' r' =>
              rw [hrec] at h
              injection h with ho hr
              subst hr
              exact (ih rest os' r' hrec).trans (hp s o rest hps)
          | panicked => rw [hrec] at h; simp at h
          | diverge => rw [hrec] at h; simp at h
      | err e =>
          simp only [repParse, hps] at h
          injection h with ho hr
          subst hr
          exact List.suffix_rfl
      | panicked => simp [repParse, hps] at h
      | diverge => simp [repParse, hps] at h

/-- The bounded loop preserves the suffix invariant as well. -/
lemma repParseN_suffix {α : Type} (p : Parser α) (hp : SuffixInv p) :
    ∀ (t : Nat) (s : List Char) (os : List α) (r : List Char),
      repParseN p t s = .out os r → r <:+ s := by
  intro t
  induction t with
  | zero =>
      intro s os r h
      simp only [repParseN] at h
      injection h with ho hr
      subst hr
      exact List.suffix_rfl
  | succ t ih =>
      intro s os r h
      cases hps : p s with
      | ok o rest =>
          simp only [repParseN, hps] at h
          cases hrec : repParseN p t rest with
          | out os' r' =>
              rw [hrec] at h
              injection h with ho hr
              subst hr
              exact (ih rest os' r' hrec).trans (hp s o rest hps)
          | panicked => rw [hrec] at h; simp at h
          | diverge => rw [hrec] at h; simp at h
      | err e =>
          simp only [repParseN, hps] at h
          injection h with ho hr
          subst hr
          exact List.suffix_rfl
      | panicked => simp [repParseN, hps] at h
      | diverge => simp [repParseN, hps] at h

/-- The `one_of` alternation returns a remainder produced by one of its
literal children. -/
lemma oneOf_suffix (cands : List (List Char)) : SuffixInv (oneOf cands) := by
  induction cands with
  | nil => intro s o r h; simp [oneOf] at h
  | cons c cs ih =>
      intro s o r h
      cases hc : literalP c s with
      | ok o' r' =>
          simp only [oneOf, hc] at h
          injection h with ho hr
          subst hr
          -- the remainder comes from the literal parser
          have : r' <:+ s := by
            simp only [literalP] at hc
            by_cases hpre : c.isPrefixOf s
            · rw [if_pos hpre] at hc
              injection hc with h1 h2
              rw [← h2]
              exact List.drop_suffix _ _
            · rw [if_neg hpre] at hc
              exact absurd hc (by simp)
          exact this
      | err e => simp only [oneOf, hc] at h; exact ih s o r h
      | panicked => simp only [oneOf, hc] at h; exact ih s o r h
      | diverge => simp only [oneOf, hc] at h; exact ih s o r h

/-- C9: for every parser built from this library's primitives and
combinators, a successful parse returns a remaining input that is a
suffix of the input passed in: the primitives `literal`, `numeric` and
the derived `uint` satisfy the invariant outright, `one_of` over any
literal candidates satisfies it, `end` satisfies it for any inner parser,
and `then`, `map`, `zero_or_more`, `one_or_more` and `n_or_more` preserve
it from their children. -/
theorem C9_suffix_invariant :
    (∀ expected : List Char, SuffixInv (literalP expected)) ∧
    SuffixInv numericP ∧
    SuffixInv uintP ∧
    (∀ cands : List (List Char), SuffixInv (oneOf cands)) ∧
    (∀ (α : Type) (p : Parser α), SuffixInv (endP p)) ∧
    (∀ (α β : Type) (p1 : Parser α) (p2 : Parser β),
      SuffixInv p1 → SuffixInv p2 → SuffixInv (thenP p1 p2)) ∧
    (∀ (α β : Type) (p : Parser α) (f : α → β), SuffixInv p → SuffixInv (mapP p f)) ∧
    (∀ (α : Type) (p : Parser α), SuffixInv p → SuffixInv (zeroOrMore p)) ∧
    (∀ (α : Type) (p : Parser α), SuffixInv p → SuffixInv (oneOrMore p)) ∧
    (∀ (t : Nat) (α : Type) (p : Parser α), SuffixInv p → SuffixInv (nOrMore t p)) := by
  have hlit : ∀ expected : List Char, SuffixInv (literalP expected) := by
    intro expected s o r h
    simp only [literalP] at h
    by_cases hpre : expected.isPrefixOf s
    · rw [if_pos hpre] at h
      injection h with h1 h2
      rw [← h2]
      exact List.drop_suffix _ _
    · rw [if_neg hpre] at h
      exact absurd h (by simp)
  have hnum : SuffixInv numericP := by
    intro s o r h
    cases s with
    | nil => simp [numericP] at h
    | cons c cs =>
        cases hc : isNumericChar c <;> simp [numericP, hc] at h
        rw [← h.2]
        exact List.suffix_cons c cs
  have hone : ∀ (α : Type) (p : Parser α), SuffixInv p → SuffixInv (oneOrMore p) := by
    intro α p hp s o r h
    simp only [oneOrMore] at h
    cases hl : repParse p (s.length + 1) s with
    | out os r' =>
        simp only [hl] at h
        cases os with
        | nil => simp at h
        | cons x xs =>
            rw [if_neg (by simp)] at h
            injection h with ho hr
            subst hr
            exact repParse_suffix p hp _ s (x :: xs) _ hl
    | panicked => rw [hl] at h; simp at h
    | diverge => rw [hl] at h; simp at h
  refine ⟨hlit, hnum, ?_, oneOf_suffix, ?_, ?_, ?_, ?_, hone, ?_⟩
  · -- uint: its remainder is the remainder of one_or_more(numeric())
    intro s o r h
    simp only [uintP] at h
    cases ho : oneOrMore numericP s with
    | ok out rest =>
        simp only [ho] at h
        cases hp : parseU64 (s.take out.length) with
        | some n =>
            simp only [hp] at h
            injection h with h1 h2
            subst h2
            exact hone (List Char) numericP hnum s out _ ho
        | none => simp [hp] at h
    | err e => simp [ho] at h
    | panicked => simp [ho] at h
    | diverge => simp [ho] at h
  · -- end: on success the whole input is the remainder, a suffix of itself
    intro α p s o r h
    cases hp : p s with
    | ok o' rest =>
        cases rest with
        | nil =>
            simp only [endP, hp] at h
            injection h with ho hr
            subst hr
            exact List.suffix_rfl
        | cons c cs => simp [endP, hp] at h
    | err e => simp [endP, hp] at h
    | panicked => simp [endP, hp] at h
    | diverge => simp [endP, hp] at h
  · -- then: compose the two children's suffixes
    intro α β p1 p2 h1 h2 s o r h
    cases hp1 : p1 s with
    | ok o1 r1 =>
        cases hp2 : p2 r1 with
        | ok o2 r2 =>
            simp only [thenP, hp1, hp2] at h
            injection h with ha hb
            subst hb
            exact (h2 r1 o2 _ hp2).trans (h1 s o1 r1 hp1)
        | err e => simp [thenP, hp1, hp2] at h
        | panicked => simp [thenP, hp1, hp2] at h
        | diverge => simp [thenP, hp1, hp2] at h
    | err e => simp [thenP, hp1] at h
    | panicked => simp [thenP, hp1] at h
    | diverge => simp [thenP, hp1] at h
  · -- map: the remainder is untouched
    intro α β p f hp s o r h
    cases hps : p s with
    | ok o' r' =>
        simp only [mapP, hps] at h
        injection h with ha hb
        subst hb
        exact hp s o' _ hps
    | err e => simp [mapP, hps] at h
    | panicked => simp [mapP, hps] at h
    | diverge => simp [mapP, hps] at h
  · -- zero_or_more: directly from the loop
    intro α p hp s o r h
    simp only [zeroOrMore] at h
    cases hl : repParse p (s.length + 1) s with
    | out os r' =>
        simp only [hl] at h
        injection h with ho hr
        subst hr
        exact repParse_suffix p hp _ s os _ hl
    | panicked => rw [hl] at h; simp at h
    | diverge => rw [hl] at h; simp at h
  · -- n_or_more: directly from the bounded loop
    intro t α p hp s o r h
    simp only [nOrMore] at h
    cases hl : repParseN p t s with
    | out os r' =>
        simp only [hl] at h
        cases os with
        | nil => simp at h
        | cons x xs =>
            rw [if_neg (by simp)] at h
            injection h with ho hr
            subst hr
            exact repParseN_suffix p hp t s (x :: xs) _ hl
    | panicked => rw [hl] at h; simp at h
    | diverge => rw [hl] at h; simp at h

/-- C9 witness: the invariant applied to a concrete literal parse. -/
theorem C9_witness : (['c'] : List Char) <:+ ['a', 'b', 'c'] :=
  C9_suffix_invariant.1 ['a', 'b'] ['a', 'b', 'c'] ['a', 'b'] ['c'] (by decide)

/-- The decimal representation of a natural number, most significant
digit first. -/
def toDecimal (n : Nat) : List Char :=
  if n = 0 then ['0']
  else (Nat.digits 10 n).reverse.map (fun d => Char.ofNat (48 + d))

/-- Whether the first character of a list, if any, fails `is_numeric`, so
that a repetition of `numeric()` stops exactly at the list's start. -/
def headNotNumeric : List Char → Bool
  | [] => true
  | c :: _ => !isNumericChar c

/-- A digit below ten maps to the expected ASCII character. -/
lemma digitChar_spec (d : Nat) (hd : d < 10) :
    (Char.ofNat (48 + d)).toNat = 48 + d ∧ isAsciiDigit (Char.ofNat (48 + d)) = true ∧
      isNumericChar (Char.ofNat (48 + d)) = true := by
  interval_cases d <;> exact ⟨by decide, by decide, by decide⟩

/-- Every character of a decimal representation is an ASCII digit and
numeric. -/
lemma toDecimal_all (n : Nat) :
    ∀ c ∈ toDecimal n, isAsciiDigit c = true ∧ isNumericChar c = true := by
  intro c hc
  unfold toDecimal at hc
  by_cases h0 : n = 0
  · rw [if_pos h0] at hc
    simp only [List.mem_singleton] at hc
    subst hc
    exact ⟨by decide, by decide⟩
  · rw [if_neg h0] at hc
    simp only [List.mem_map, List.mem_reverse] at hc
    obtain ⟨d, hd, rfl⟩ := hc
    have hlt : d < 10 := Nat.digits_lt_base (by norm_num) hd
    exact ⟨(digitChar_spec d hlt).2.1, (digitChar_spec d hlt).2.2⟩

/-- A decimal representation is never empty. -/
lemma toDecimal_ne_nil (n : Nat) : toDecimal n ≠ [] := by
  unfold toDecimal
  by_cases h0 : n = 0
  · rw [if_pos h0]; simp
  · rw [if_neg h0]
    intro h
    have hlen := congrArg List.length h
    simp only [List.length_map, List.length_reverse, List.length_nil] at hlen
    exact Nat.digits_ne_nil_iff_ne_zero.mpr h0 (List.length_eq_zero.mp hlen)

/-- Folding the digit-value accumulator over a reversed little-endian
digit list recovers the number (with the accumulator scaled past it). -/
lemma foldl_digit_chars (L : List Nat) (hL : ∀ d ∈ L, d < 10) (a : Nat) :
    ((L.reverse.map (fun d => Char.ofNat (48 + d))).foldl
        (fun acc c => acc * 10 + (c.toNat - 48)) a)
      = a * 10 ^ L.length + Nat.ofDigits 10 L := by
  induction L generalizing a with
  | nil => simp
  | cons d t ih =>
      have hd : d < 10 := hL d (List.mem_cons_self d t)
      have ht : ∀ x ∈ t, x < 10 := fun x hx => hL x (List.mem_cons_of_mem d hx)
      simp only [List.reverse_cons, List.map_append, List.foldl_append, List.map_cons,
        List.map_nil, List.foldl_cons, List.foldl_nil, ih ht a]
      rw [(digitChar_spec d hd).1, Nat.add_sub_cancel_left, Nat.ofDigits_cons]
      simp only [List.length_cons, Nat.cast_id]
      ring

/-- The digit-value fold inverts the decimal representation. -/
lemma digitsToNat_toDecimal (n : Nat) : digitsToNat (toDecimal n) = n := by
  unfold toDecimal
  by_cases h0 : n = 0
  · rw [if_pos h0]; subst h0; decide
  · rw [if_neg h0]
    unfold digitsToNat
    rw [foldl_digit_chars (Nat.digits 10 n)
      (fun d hd => Nat.digits_lt_base (by norm_num) hd) 0]
    simp [Nat.ofDigits_digits]

/-- On a nonempty all-ASCII-digit span whose value fits 64 bits, the
`u64` conversion succeeds with the digit value. -/
lemma parseU64_digits (s : List Char) (hne : s ≠ [])
    (hall : ∀ c ∈ s, isAsciiDigit c = true) (hlt : digitsToNat s < u64Limit) :
    parseU64 s = some (digitsToNat s) := by
  have hstrip : stripPlus s = s := by
    unfold stripPlus
    cases s with
    | nil => simp
    | cons c cs =>
        have hc : isAsciiDigit c = true := hall c (List.mem_cons_self c cs)
        have hnp : ¬ ((c :: cs).headD ' ' = '+') := by
          simp only [List.headD_cons]
          intro hplus
          rw [hplus] at hc
          exact absurd hc (by decide)
        rw [if_neg hnp]
  unfold parseU64
  rw [hstrip, if_pos ⟨hne, List.all_eq_true.mpr hall, hlt⟩]

/-- Repeating `numeric()` over a digit span followed by a non-numeric
head consumes exactly the digit span. -/
lemma repParse_digits (ds rest : List Char)
    (hds : ∀ c ∈ ds, isNumericChar c = true) (hrest : headNotNumeric rest = true) :
    ∀ fuel, ds.length < fuel →
      repParse numericP fuel (ds ++ rest) = .out (ds.map (fun c => [c])) rest := by
  induction ds with
  | nil =>
      intro fuel hf
      cases fuel with
      | zero => omega
      | succ f =>
          have herr : ∃ e, numericP rest = .err e := by
            cases rest with
            | nil => exact ⟨_, rfl⟩
            | cons c cs =>
                simp only [headNotNumeric, Bool.not_eq_true'] at hrest
                exact ⟨Error.ofMsg "non-numeric character found", by simp [numericP, hrest]⟩
          obtain ⟨e, he⟩ := herr
          simp [repParse, he]
  | cons c cs ih =>
      intro fuel hf
      cases fuel with
      | zero => omega
      | succ f =>
          have hc : isNumericChar c = true := hds c (List.mem_cons_self c cs)
          have hnum : numericP (c :: (cs ++ rest)) = .ok [c] (cs ++ rest) := by
            simp [numericP, hc]
          have hlen : cs.length < f := by
            simp only [List.length_cons] at hf; omega
          simp only [List.cons_append, List.map_cons, repParse, hnum,
            ih (fun x hx => hds x (List.mem_cons_of_mem c hx)) f hlen]

/-- On a nonempty digit span, `one_or_more(numeric())` collects the
single-character spans of the digits and leaves the rest. -/
lemma oneOrMore_digits (ds rest : List Char) (hne : ds ≠ [])
    (hds : ∀ c ∈ ds, isNumericChar c = true) (hrest : headNotNumeric rest = true) :
    oneOrMore numericP (ds ++ rest) = .ok (ds.map (fun c => [c])) rest := by
  have hlen : ds.length < (ds ++ rest).length + 1 := by
    rw [List.length_append]; omega
  simp only [oneOrMore, repParse_digits ds rest hds hrest _ hlen]
  cases ds with
  | nil => exact absurd rfl hne
  | cons c cs => simp

/-- On a digit span whose value fits 64 bits, `uint()` yields the value
and the rest of the input. -/
lemma uintP_digits (ds rest : List Char) (hne : ds ≠ [])
    (hds : ∀ c ∈ ds, isNumericChar c = true) (hascii : ∀ c ∈ ds, isAsciiDigit c = true)
    (hrest : headNotNumeric rest = true) (hval : digitsToNat ds < u64Limit) :
    uintP (ds ++ rest) = .ok (digitsToNat ds) rest := by
  have h1 := oneOrMore_digits ds rest hne hds hrest
  simp only [uintP, h1]
  rw [List.length_map, List.take_left, parseU64_digits ds hne hascii hval]

/-- Whole-pipeline lemma: a decimal number followed by a recognized unit
parses to the unit's scaling of the number. -/
lemma parse_duration_scaled (n : Nat) (hn : n < u64Limit) (u : List Char)
    (huni : oneOf durationUnits u = .ok u []) (hhead : headNotNumeric u = true)
    (d : Duration) (hd : durMatch n u = some d) :
    parse_duration (toDecimal n ++ u) = .ok d := by
  have hu : uintP (toDecimal n ++ u) = .ok n u := by
    have h := uintP_digits (toDecimal n) u (toDecimal_ne_nil n)
      (fun c hc => (toDecimal_all n c hc).2) (fun c hc => (toDecimal_all n c hc).1)
      hhead (by rw [digitsToNat_toDecimal]; exact hn)
    rw [digitsToNat_toDecimal] at h
    exact h
  have hthen : thenP uintP (oneOf durationUnits) (toDecimal n ++ u) = .ok (n, u) [] := by
    simp only [thenP, hu, huni]
  have hdur : durationP (toDecimal n ++ u) = .ok d [] := by
    simp only [durationP, hthen, hd]
  simp only [parse_duration, endP, hdur]

/-- C1: for every number representable as an unsigned 64-bit integer and
every supported unit, `parse_duration` of the decimal representation
followed by that unit succeeds with the number scaled by the unit; in
particular "500ms" is 500 milliseconds, "1000000us" equals one second,
"2s" is 2 seconds and "1000ns" is 1000 nanoseconds. -/
theorem C1_parse_duration_roundtrip (n : Nat) (hn : n < 2 ^ 64) :
    parse_duration (toDecimal n ++ ['s']) = .ok (Duration.from_secs n) ∧
    parse_duration (toDecimal n ++ ['m', 's']) = .ok (Duration.from_millis n) ∧
    parse_duration (toDecimal n ++ ['n', 's']) = .ok (Duration.from_nanos n) ∧
    parse_duration (toDecimal n ++ ['u', 's']) = .ok (Duration.from_micros n) ∧
    parse_duration ['5', '0', '0', 'm', 's'] = .ok (Duration.from_millis 500) ∧
    parse_duration ['1', '0', '0', '0', '0', '0', '0', 'u', 's'] = .ok (Duration.from_secs 1) ∧
    parse_duration ['2', 's'] = .ok (Duration.from_secs 2) ∧
    parse_duration ['1', '0', '0', '0', 'n', 's'] = .ok (Duration.from_nanos 1000) :=
  ⟨parse_duration_scaled n hn ['s'] (by decide) (by decide) _ rfl,
   parse_duration_scaled n hn ['m', 's'] (by decide) (by decide) _ rfl,
   parse_duration_scaled n hn ['n', 's'] (by decide) (by decide) _ rfl,
   parse_duration_scaled n hn ['u', 's'] (by decide) (by decide) _ rfl,
   by decide, by decide, by decide, by decide⟩

/-- C1 witness: the roundtrip applied at 500 milliseconds. -/
theorem C1_witness :
    parse_duration (toDecimal 500 ++ ['m', 's']) = .ok (Duration.from_millis 500) :=
  (C1_parse_duration_roundtrip 500 (by norm_num)).2.1

end Barrage
